import Mathlib

/-!
Shallow embedding of the metamorphic-gpt repository core:
- `Ingest` embeds scripts/ingest.py (change detection, scan, load/split, main run).
- `RAG` embeds app/services/gpt_service.py (role filter, retriever contract, RAG chain).
- `Slack` embeds app/services/slack_service.py (role resolution, background handler).
External capabilities (PDF/DOCX loaders, text splitter, Qdrant search, the
completion model) are modelled as parameters, constrained only by their
documented contracts.
-/

namespace Ingest

/-- A file found by os.walk under DOCUMENTS_PATH: `parts` is the list of path
segments that Python's Path(filepath).parts yields (e.g.
["documents", "sales", "general", "playbook.pdf"]), and `mtime` is the value
os.path.getmtime returns at scan time. -/
structure FSFile where
  parts : List String
  mtime : Nat
deriving DecidableEq, Repr

/-- The filename component, i.e. the last path segment (what os.walk yields). -/
def FSFile.filename (f : FSFile) : String :=
  f.parts.getLastD ""

/-- One value of the processed-files log: the JSON object
\x7b"last_modified": ..., "processed_at": ...\x7d stored per path. Timestamps are
modelled as naturals. -/
structure ManifestEntry where
  last_modified : Nat
  processed_at : Nat
deriving DecidableEq, Repr

/-- The processed-files log (data/processed_files.json): a mapping from a file
path to its entry, modelled as an association list keyed by the path segments. -/
abbrev Manifest := List (List String × ManifestEntry)

/-- Lookup in the manifest mapping (Python dict access by key). -/
def findEntry : Manifest → List String → Option ManifestEntry
  | [], _ => none
  | (q, e) :: rest, p => if q = p then some e else findEntry rest p

/-- Python dict assignment `log[path] = entry`: overwrite the entry if the key
is present, otherwise append it. -/
def setEntry : Manifest → List String → ManifestEntry → Manifest
  | [], p, e => [(p, e)]
  | (q, e') :: rest, p, e =>
    if q = p then (q, e) :: rest else (q, e') :: setEntry rest p e

/-- Embeds has_file_changed (ingest.py:54-61): a file is considered changed
when it has no manifest entry, or its current mtime is strictly greater than
the recorded last_modified. -/
def has_file_changed (filepath : List String) (mtime : Nat) (log_data : Manifest) : Bool :=
  match findEntry log_data filepath with
  | none => true
  | some e => decide (e.last_modified < mtime)

/-- Python's str.endswith on a single suffix, modelled over the character
list of the string. -/
def endswith (s suffix : String) : Bool :=
  suffix.data.isSuffixOf s.data

/-- The extension test at ingest.py:78: filename.endswith(('.pdf', '.docx')). -/
def supportedExt (filename : String) : Bool :=
  endswith filename ".pdf" || endswith filename ".docx"

/-- The metadata dict built at ingest.py:90 from the path structure. -/
structure FileMeta where
  department : String
  role : String
  source : List String
deriving DecidableEq, Repr

/-- One element of files_to_process (ingest.py:91): the file path together
with its path-derived metadata. -/
structure FileInfo where
  path : List String
  metadata : FileMeta
deriving DecidableEq, Repr

/-- The record appended for a structurally valid file (ingest.py:85-91):
department and role are the second and third path segments. -/
def toInfo (f : FSFile) : FileInfo :=
  { path := f.parts
    metadata :=
      { department := f.parts.getD 1 ""
        role := f.parts.getD 2 ""
        source := f.parts } }

/-- Embeds the os.walk loop of get_documents_to_process (ingest.py:76-95),
returning the selected files and, separately, the paths for which the
"Skipping ...: Does not match expected directory structure" diagnostic is
printed.  The checks are in source order: extension, then force/changed, then
path depth; the try/except IndexError around the body is unreachable because
the `len(path_parts) >= 4` guard precedes every indexing. -/
def scanFiles (log : Manifest) (force_reingest : Bool) :
    List FSFile → List FileInfo × List (List String)
  | [] => ([], [])
  | f :: rest =>
    let acc := scanFiles log force_reingest rest
    if supportedExt f.filename then
      if force_reingest || has_file_changed f.parts f.mtime log then
        if 4 ≤ f.parts.length then (toInfo f :: acc.1, acc.2)
        else (acc.1, f.parts :: acc.2)
      else acc
    else acc

/-- Embeds get_documents_to_process (ingest.py:65-97): the files_to_process
list for a given walk result, on-disk manifest and force flag. -/
def get_documents_to_process (files : List FSFile) (log : Manifest)
    (force_reingest : Bool) : List FileInfo :=
  (scanFiles log force_reingest files).1

/-- The diagnostics emitted by the same scan for files of insufficient depth. -/
def scanDiagnostics (files : List FSFile) (log : Manifest)
    (force_reingest : Bool) : List (List String) :=
  (scanFiles log force_reingest files).2

/-- A langchain Document: a page content string plus metadata.  Loader-native
metadata keys (page numbers etc.) are overwritten-or-joined by
doc.metadata.update(metadata) at ingest.py:116-117; only the keys written by
that update are relevant downstream, so metadata is modelled as FileMeta. -/
structure Doc where
  page_content : String
  metadata : FileMeta
deriving DecidableEq, Repr

/-- The two external document loaders (PyPDFLoader and
UnstructuredWordDocumentLoader): given a file path, .load() either returns the
extracted page contents or raises (modelled as Except.error). -/
structure Loaders where
  pypdf : List String → Except String (List String)
  unstructuredWord : List String → Except String (List String)

/-- The loader dispatch and per-file load of ingest.py:106-119: choose the
loader by extension ('continue' on anything else), load, then attach the
path-derived metadata to every returned document.  A loader exception
propagates. -/
def loadOne (L : Loaders) (fi : FileInfo) : Except String (List Doc) :=
  if endswith (fi.path.getLastD "") ".pdf" then
    (L.pypdf fi.path).map (fun cs => cs.map (fun c => ⟨c, fi.metadata⟩))
  else if endswith (fi.path.getLastD "") ".docx" then
    (L.unstructuredWord fi.path).map (fun cs => cs.map (fun c => ⟨c, fi.metadata⟩))
  else
    Except.ok []

/-- The accumulation loop of load_and_split_documents (ingest.py:101-119):
files are loaded in order and their documents concatenated; the first loader
exception aborts the loop (no try/except surrounds loader.load()). -/
def loadAll (L : Loaders) : List FileInfo → Except String (List Doc)
  | [] => Except.ok []
  | fi :: rest =>
    match loadOne L fi with
    | Except.error e => Except.error e
    | Except.ok docs =>
      match loadAll L rest with
      | Except.error e => Except.error e
      | Except.ok tail => Except.ok (docs ++ tail)

/-- RecursiveCharacterTextSplitter.split_documents processes each document
independently: its page content is cut into pieces by the external splitting
function and each piece keeps the document's metadata. -/
def splitDoc (splitText : String → List String) (d : Doc) : List Doc :=
  (splitText d.page_content).map (fun t => ⟨t, d.metadata⟩)

/-- Embeds load_and_split_documents (ingest.py:99-126): load every file, then
split the concatenated documents into chunks. -/
def load_and_split_documents (L : Loaders) (splitText : String → List String)
    (files_to_process : List FileInfo) : Except String (List Doc) :=
  (loadAll L files_to_process).map (fun all_docs => all_docs.flatMap (splitDoc splitText))

/-- The observable steps of one execution of main (ingest.py:128-176), in
program order.  `scan` records the files_to_process selection; `loadAttempt`
records that load_and_split_documents was entered; `embedUpsert` records the
single Qdrant.from_documents call (embedding plus upsert, with its
force_recreate flag); `commitManifest` records the save of the updated
processed-files log.  A crash at any moment corresponds to a prefix of the
trace. -/
inductive Event where
  | scan (selected : List FileInfo)
  | loadAttempt (selected : List FileInfo)
  | embedUpsert (chunks : List Doc) (force_recreate : Bool)
  | commitManifest (log : Manifest)
deriving DecidableEq, Repr

/-- Everything main reads from its surroundings: the walk result with
scan-time mtimes, the on-disk manifest (as parsed by
load_processed_files_log, so a missing/empty/corrupted file is already the
empty mapping), the external loaders and splitter, the mtimes
os.path.getmtime returns during the commit loop (ingest.py:171), and the
datetime.now() timestamp used for processed_at. -/
structure Env where
  files : List FSFile
  log0 : Manifest
  loaders : Loaders
  splitText : String → List String
  commitMtime : List String → Nat
  now : Nat

/-- The manifest written by the commit loop (ingest.py:167-174): the log is
re-loaded from disk and every selected file's entry is overwritten with the
mtime re-read at commit time and the current timestamp. -/
def commitLog (env : Env) (selected : List FileInfo) : Manifest :=
  selected.foldl
    (fun log fi => setEntry log fi.path ⟨env.commitMtime fi.path, env.now⟩)
    env.log0

/-- The event trace of one execution of main (ingest.py:128-176).  The run
stops after the scan when nothing is selected (line 136), stops after the
load when it raised or produced no chunks (lines 113/146), and otherwise
embeds, upserts and finally commits the manifest. -/
def mainTrace (env : Env) (force_reingest : Bool) : List Event :=
  let selected := get_documents_to_process env.files env.log0 force_reingest
  if selected.isEmpty then [Event.scan selected]
  else
    match load_and_split_documents env.loaders env.splitText selected with
    | Except.error _ => [Event.scan selected, Event.loadAttempt selected]
    | Except.ok split_docs =>
      if split_docs.isEmpty then [Event.scan selected, Event.loadAttempt selected]
      else
        [Event.scan selected, Event.loadAttempt selected,
         Event.embedUpsert split_docs force_reingest,
         Event.commitManifest (commitLog env selected)]

/-- How one execution of main terminated. -/
inductive Outcome where
  /-- Returned at ingest.py:136 ("No new or updated documents to process."). -/
  | noFiles
  /-- A loader exception propagated out of load_and_split_documents. -/
  | crashed (e : String)
  /-- Returned at ingest.py:146 ("No content could be extracted ..."). -/
  | noContent
  /-- Ran to completion: embedded, upserted and committed the manifest. -/
  | completed
deriving DecidableEq, Repr

/-- The termination status of one execution of main, following the same
branches as `mainTrace`. -/
def mainOutcome (env : Env) (force_reingest : Bool) : Outcome :=
  let selected := get_documents_to_process env.files env.log0 force_reingest
  if selected.isEmpty then Outcome.noFiles
  else
    match load_and_split_documents env.loaders env.splitText selected with
    | Except.error e => Outcome.crashed e
    | Except.ok split_docs =>
      if split_docs.isEmpty then Outcome.noContent else Outcome.completed

/-- The manifest on disk after executing a (possibly partial) trace: only a
`commitManifest` event writes the log file. -/
def manifestAfter (log0 : Manifest) (trace : List Event) : Manifest :=
  trace.foldl
    (fun log e => match e with | Event.commitManifest m => m | _ => log)
    log0

/-- The manifest on disk after a completed or crashed run of main. -/
def runManifest (env : Env) (force_reingest : Bool) : Manifest :=
  manifestAfter env.log0 (mainTrace env force_reingest)

/-- The environment of a second run of main straight after a first one, with
nothing on the file system changed in between: the walk result, mtimes and
external capabilities are as before; only the on-disk manifest is whatever
the first run left. -/
def secondEnv (env : Env) : Env :=
  { env with log0 := runManifest env false }

end Ingest

namespace Ingest

theorem findEntry_setEntry (log : Manifest) (p : List String) (e : ManifestEntry)
    (q : List String) :
    findEntry (setEntry log p e) q = if q = p then some e else findEntry log q := by
  induction log with
  | nil =>
    by_cases h : q = p
    · subst h; simp [setEntry, findEntry]
    · simp [setEntry, findEntry, h, Ne.symm h]
  | cons hd rest ih =>
    obtain ⟨r, e'⟩ := hd
    simp only [setEntry]
    by_cases hrp : r = p <;> by_cases hqp : q = p <;> by_cases hrq : r = q <;>
      simp_all [findEntry]

theorem findEntry_foldl_set (cm : List String → Nat) (t : Nat) :
    ∀ (sel : List FileInfo) (log : Manifest) (p : List String),
      findEntry (sel.foldl (fun l fi => setEntry l fi.path ⟨cm fi.path, t⟩) log) p
        = if p ∈ sel.map FileInfo.path then some ⟨cm p, t⟩ else findEntry log p := by
  intro sel
  induction sel with
  | nil => intro log p; simp
  | cons fi rest ih =>
    intro log p
    simp only [List.foldl_cons, List.map_cons]
    rw [ih]
    by_cases hmem : p ∈ rest.map FileInfo.path
    · simp [hmem]
    · by_cases hp : p = fi.path
      · subst hp; simp [hmem, findEntry_setEntry]
      · simp [hmem, hp, findEntry_setEntry]

/-- Lookup in the manifest written by the commit loop: a selected path gets
the commit-time mtime and timestamp, every other path keeps its old entry. -/
theorem findEntry_commitLog (env : Env) (sel : List FileInfo) (p : List String) :
    findEntry (commitLog env sel) p
      = if p ∈ sel.map FileInfo.path then some ⟨env.commitMtime p, env.now⟩
        else findEntry env.log0 p :=
  findEntry_foldl_set env.commitMtime env.now sel env.log0 p

/-- Membership characterisation of the scan's selection. -/
theorem mem_scan_iff (files : List FSFile) (log : Manifest) (force : Bool)
    (fi : FileInfo) :
    fi ∈ get_documents_to_process files log force ↔
      ∃ f, f ∈ files ∧ toInfo f = fi ∧ supportedExt f.filename = true ∧
        (force || has_file_changed f.parts f.mtime log) = true ∧
        4 ≤ f.parts.length := by
  induction files with
  | nil => simp [get_documents_to_process, scanFiles]
  | cons g rest ih =>
    simp only [get_documents_to_process, scanFiles] at ih ⊢
    by_cases h1 : supportedExt g.filename = true
    · by_cases h2 : (force || has_file_changed g.parts g.mtime log) = true
      · by_cases h3 : 4 ≤ g.parts.length
        · rw [if_pos h1, if_pos h2, if_pos h3]
          constructor
          · intro hmem
            rcases List.mem_cons.mp hmem with hfi | hfi
            · exact ⟨g, List.mem_cons_self g rest, hfi.symm, h1, h2, h3⟩
            · obtain ⟨f, hfmem, rest'⟩ := ih.mp hfi
              exact ⟨f, List.mem_cons_of_mem g hfmem, rest'⟩
          · rintro ⟨f, hfmem, heq, hs, hc, hd⟩
            rcases List.mem_cons.mp hfmem with rfl | hfmem
            · exact heq ▸ List.mem_cons_self _ _
            · exact List.mem_cons_of_mem _ (ih.mpr ⟨f, hfmem, heq, hs, hc, hd⟩)
        · rw [if_pos h1, if_pos h2, if_neg h3]
          rw [ih]
          constructor
          · rintro ⟨f, hfmem, rest'⟩
            exact ⟨f, List.mem_cons_of_mem g hfmem, rest'⟩
          · rintro ⟨f, hfmem, heq, hs, hc, hd⟩
            rcases List.mem_cons.mp hfmem with rfl | hfmem
            · exact absurd hd h3
            · exact ⟨f, hfmem, heq, hs, hc, hd⟩
      · rw [if_pos h1, if_neg h2]
        rw [ih]
        constructor
        · rintro ⟨f, hfmem, rest'⟩
          exact ⟨f, List.mem_cons_of_mem g hfmem, rest'⟩
        · rintro ⟨f, hfmem, heq, hs, hc, hd⟩
          rcases List.mem_cons.mp hfmem with rfl | hfmem
          · exact absurd hc h2
          · exact ⟨f, hfmem, heq, hs, hc, hd⟩
    · rw [if_neg h1]
      rw [ih]
      constructor
      · rintro ⟨f, hfmem, rest'⟩
        exact ⟨f, List.mem_cons_of_mem g hfmem, rest'⟩
      · rintro ⟨f, hfmem, heq, hs, hc, hd⟩
        rcases List.mem_cons.mp hfmem with rfl | hfmem
        · exact absurd hs h1
        · exact ⟨f, hfmem, heq, hs, hc, hd⟩

/-- A non-force scan selects nothing when no eligible file counts as changed. -/
theorem scan_empty (files : List FSFile) (log : Manifest)
    (h : ∀ f ∈ files, supportedExt f.filename = true → 4 ≤ f.parts.length →
      has_file_changed f.parts f.mtime log = false) :
    get_documents_to_process files log false = [] := by
  induction files with
  | nil => rfl
  | cons g rest ih =>
    have ih' := ih (fun f hf => h f (List.mem_cons_of_mem g hf))
    simp only [get_documents_to_process, scanFiles] at ih' ⊢
    by_cases h1 : supportedExt g.filename = true
    · by_cases h2 : (false || has_file_changed g.parts g.mtime log) = true
      · by_cases h3 : 4 ≤ g.parts.length
        · have := h g (List.mem_cons_self g rest) h1 h3
          rw [Bool.false_or] at h2
          rw [this] at h2
          exact absurd h2 (by simp)
        · rw [if_pos h1, if_pos h2, if_neg h3]
          exact ih'
      · rw [if_pos h1, if_neg h2]
        exact ih'
    · rw [if_neg h1]
      exact ih'

/-- The scan processes a concatenation componentwise: a file's outcome never
depends on the other files in the walk. -/
theorem scanFiles_append (log : Manifest) (force : Bool) (l1 l2 : List FSFile) :
    scanFiles log force (l1 ++ l2)
      = ((scanFiles log force l1).1 ++ (scanFiles log force l2).1,
         (scanFiles log force l1).2 ++ (scanFiles log force l2).2) := by
  induction l1 with
  | nil => simp [scanFiles]
  | cons g rest ih =>
    simp only [List.cons_append, scanFiles]
    by_cases h1 : supportedExt g.filename = true
    · by_cases h2 : (force || has_file_changed g.parts g.mtime log) = true
      · by_cases h3 : 4 ≤ g.parts.length
        · rw [if_pos h1, if_pos h2, if_pos h3, if_pos h1, if_pos h2, if_pos h3]
          simp [List.append_eq, ih]
        · rw [if_pos h1, if_pos h2, if_neg h3, if_pos h1, if_pos h2, if_neg h3]
          simp [List.append_eq, ih]
      · rw [if_pos h1, if_neg h2, if_pos h1, if_neg h2]
        simp [List.append_eq, ih]
    · rw [if_neg h1, if_neg h1]
      simp [List.append_eq, ih]

/-- Every selected record's path has at least the required four segments. -/
theorem scan_path_depth {files : List FSFile} {log : Manifest} {force : Bool}
    {fi : FileInfo} (h : fi ∈ get_documents_to_process files log force) :
    4 ≤ fi.path.length := by
  obtain ⟨f, -, heq, -, -, hd⟩ := (mem_scan_iff files log force fi).mp h
  have : fi.path = f.parts := by rw [← heq]; rfl
  rw [this]
  exact hd

/-- The log file is only written by a commitManifest event. -/
theorem manifestAfter_no_commit {log0 : Manifest} :
    ∀ {p : List Event}, (∀ m, Event.commitManifest m ∉ p) →
      manifestAfter log0 p = log0 := by
  intro p
  induction p generalizing log0 with
  | nil => intro _; rfl
  | cons ev rest ih =>
    intro h
    cases ev with
    | commitManifest m => exact absurd (List.mem_cons_self _ _) (h m)
    | scan s =>
      exact ih (fun m hm => h m (List.mem_cons_of_mem _ hm))
    | loadAttempt s =>
      exact ih (fun m hm => h m (List.mem_cons_of_mem _ hm))
    | embedUpsert c f =>
      exact ih (fun m hm => h m (List.mem_cons_of_mem _ hm))

/-- If the sequential load loop succeeded, every individual file's loader
succeeded and all of its documents are in the concatenated output. -/
theorem loadAll_ok_forall {L : Loaders} :
    ∀ {files : List FileInfo} {all_docs : List Doc},
      loadAll L files = Except.ok all_docs →
      ∀ fi ∈ files, ∃ docs, loadOne L fi = Except.ok docs ∧
        ∀ d ∈ docs, d ∈ all_docs := by
  intro files
  induction files with
  | nil => intro all _ fi hfi; exact absurd hfi (List.not_mem_nil fi)
  | cons g rest ih =>
    intro all h fi hfi
    simp only [loadAll] at h
    cases hg : loadOne L g with
    | error e => rw [hg] at h; exact Except.noConfusion h
    | ok docs =>
      rw [hg] at h
      cases hr : loadAll L rest with
      | error e => rw [hr] at h; exact Except.noConfusion h
      | ok tail =>
        rw [hr] at h
        have hall : docs ++ tail = all := by
          simpa using h
        rcases List.mem_cons.mp hfi with rfl | hfi
        · exact ⟨docs, hg, fun d hd => hall ▸ List.mem_append_left tail hd⟩
        · obtain ⟨ds, h1, h2⟩ := ih hr fi hfi
          exact ⟨ds, h1, fun d hd => hall ▸ List.mem_append_right docs (h2 d hd)⟩

/-- The first loader failure aborts the whole load loop with that failure,
regardless of what comes after it, provided everything before it loaded. -/
theorem loadAll_append_error {L : Loaders} {fb : FileInfo} {e : String}
    (post : List FileInfo) (hfail : loadOne L fb = Except.error e) :
    ∀ (pre : List FileInfo), (∀ fi ∈ pre, ∃ ds, loadOne L fi = Except.ok ds) →
      loadAll L (pre ++ fb :: post) = Except.error e := by
  intro pre
  induction pre with
  | nil => intro _; simp [loadAll, hfail]
  | cons g rest ih =>
    intro hpre
    obtain ⟨ds, hds⟩ := hpre g (List.mem_cons_self g rest)
    have := ih (fun fi hfi => hpre fi (List.mem_cons_of_mem g hfi))
    simp [loadAll, hds, this]

theorem mainTrace_of_noFiles {env : Env} {force : Bool}
    (h : get_documents_to_process env.files env.log0 force = []) :
    mainTrace env force = [Event.scan []] ∧ mainOutcome env force = Outcome.noFiles := by
  constructor <;> simp [mainTrace, mainOutcome, h]

theorem mainTrace_of_crashed {env : Env} {force : Bool} {e : String}
    (hne : get_documents_to_process env.files env.log0 force ≠ [])
    (hload : load_and_split_documents env.loaders env.splitText
        (get_documents_to_process env.files env.log0 force) = Except.error e) :
    mainTrace env force
        = [Event.scan (get_documents_to_process env.files env.log0 force),
           Event.loadAttempt (get_documents_to_process env.files env.log0 force)] ∧
    mainOutcome env force = Outcome.crashed e := by
  constructor <;> simp [mainTrace, mainOutcome, hload, List.isEmpty_iff, hne]

theorem mainTrace_of_noContent {env : Env} {force : Bool}
    (hne : get_documents_to_process env.files env.log0 force ≠ [])
    (hload : load_and_split_documents env.loaders env.splitText
        (get_documents_to_process env.files env.log0 force) = Except.ok []) :
    mainTrace env force
        = [Event.scan (get_documents_to_process env.files env.log0 force),
           Event.loadAttempt (get_documents_to_process env.files env.log0 force)] ∧
    mainOutcome env force = Outcome.noContent := by
  constructor <;> simp [mainTrace, mainOutcome, hload, List.isEmpty_iff, hne]

theorem mainTrace_of_completed {env : Env} {force : Bool} {chunks : List Doc}
    (hne : get_documents_to_process env.files env.log0 force ≠ [])
    (hload : load_and_split_documents env.loaders env.splitText
        (get_documents_to_process env.files env.log0 force) = Except.ok chunks)
    (hch : chunks ≠ []) :
    mainTrace env force
        = [Event.scan (get_documents_to_process env.files env.log0 force),
           Event.loadAttempt (get_documents_to_process env.files env.log0 force),
           Event.embedUpsert chunks force,
           Event.commitManifest
             (commitLog env (get_documents_to_process env.files env.log0 force))] ∧
    mainOutcome env force = Outcome.completed := by
  constructor <;> simp [mainTrace, mainOutcome, hload, List.isEmpty_iff, hne, hch]

/-- When the first run leaves the on-disk manifest untouched, the second run
starts from an environment identical to the first run's. -/
theorem secondEnv_eq_self {env : Env} (h : runManifest env false = env.log0) :
    secondEnv env = env := by
  cases env
  simp only [secondEnv] at *
  rw [h]

end Ingest

namespace RAG

/-- One point stored in the Qdrant collection: the chunk text plus the payload
written at ingestion time.  The langchain Qdrant integration stores the
metadata dict under the payload key "metadata", so its fields are addressed by
the dotted keys "metadata.department", "metadata.role", "metadata.source". -/
structure IndexedPoint where
  page_content : String
  department : String
  role : String
  source : String
deriving DecidableEq, Repr

/-- Payload lookup by dotted key, as Qdrant filter conditions address it. -/
def payloadGet (p : IndexedPoint) (key : String) : Option String :=
  if key = "metadata.department" then some p.department
  else if key = "metadata.role" then some p.role
  else if key = "metadata.source" then some p.source
  else if key = "page_content" then some p.page_content
  else none

/-- A qdrant_client FieldCondition with a MatchValue. -/
structure FieldCondition where
  key : String
  matchValue : String
deriving DecidableEq, Repr

/-- A qdrant_client Filter consisting only of `should` clauses. -/
structure QFilter where
  should : List FieldCondition
deriving DecidableEq, Repr

/-- Embeds the filter built by GPTService._get_retriever
(gpt_service.py:77-82): should = [role == user_role, role == "general"]. -/
def role_filter (user_role : String) : QFilter :=
  { should :=
      [ { key := "metadata.role", matchValue := user_role }
      , { key := "metadata.role", matchValue := "general" } ] }

/-- A point satisfies a FieldCondition when the addressed payload value equals
the match value. -/
def matchesCond (p : IndexedPoint) (c : FieldCondition) : Bool :=
  payloadGet p c.key == some c.matchValue

/-- Qdrant filter semantics for a should-only filter: at least one of the
should conditions holds. -/
def matchesFilter (p : IndexedPoint) (flt : QFilter) : Bool :=
  flt.should.any (matchesCond p)

/-- The state the external similarity search runs against: the points in the
collection and each point's similarity score for the (embedded) query. -/
structure SearchSpec where
  points : List IndexedPoint
  score : IndexedPoint → Nat

/-- The contract of the external Qdrant filtered similarity search
(search_type="similarity", search_kwargs k and filter): the result lists
distinct stored points that satisfy the filter, exactly min k (number of
matching points) of them, ordered by non-increasing similarity, and no
matching point left out scores higher than any returned one.  Nothing pins
down the relative order (or the choice at the k boundary) of equal-score
points. -/
def IsSearchResult (s : SearchSpec) (flt : QFilter) (k : Nat)
    (r : List IndexedPoint) : Prop :=
  r.Nodup ∧
  (∀ p ∈ r, p ∈ s.points ∧ matchesFilter p flt = true) ∧
  r.length = min k (s.points.filter (fun p => matchesFilter p flt)).length ∧
  r.Pairwise (fun p q => s.score q ≤ s.score p) ∧
  (∀ q ∈ s.points, matchesFilter q flt = true → q ∉ r →
    ∀ p ∈ r, s.score q ≤ s.score p)

/-- Embeds GPTService._get_retriever (gpt_service.py:70-86): the retriever
issues the similarity search with k = 4 and the role filter for the
requester's role; the code applies no post-processing to the returned
ranking. -/
def RetrieverYields (s : SearchSpec) (user_role : String)
    (r : List IndexedPoint) : Prop :=
  IsSearchResult s (role_filter user_role) 4 r

/-- Embeds format_docs (gpt_service.py:91-96). -/
def format_docs (docs : List IndexedPoint) : String :=
  String.intercalate "\n\n---\n\n"
    (docs.map (fun d => "Source: " ++ d.source ++ "\n\nContent: " ++ d.page_content))

/-- Embeds the PromptTemplate of _create_prompt_template
(gpt_service.py:40-64) applied to its three input variables. -/
def prompt_template (context question core_values : String) : String :=
  "\n        You are the Metamorphic GPT, a highly specialized AI assistant for Metamorphic LLC employees.\n        Your purpose is to provide clear, accurate, and compliant answers based *only* on the provided official company documents.\n        You must adhere to the company's core values in your tone and responses.\n\n        **Core Values:**\n        "
    ++ core_values
    ++ "\n\n        **Instructions:**\n        1. Analyze the user's question and the provided context (SOPs).\n        2. Formulate a direct and helpful answer using *only* the information from the context.\n        3. If the context does not contain the answer, you MUST state: \"I could not find information on this topic in the available company documents. Please consult your manager or the relevant department.\"\n        4. DO NOT invent information or use external knowledge.\n        5. At the end of your answer, cite the source document(s) from the context metadata.\n\n        ---\n        **Context (Relevant SOPs):**\n        "
    ++ context
    ++ "\n        ---\n\n        **User's Question:**\n        "
    ++ question
    ++ "\n\n        **Compliant Answer:**\n        "

/-- Embeds the LCEL chain of _create_rag_chain (gpt_service.py:104-113) after
the retrieval step: the retrieved documents are formatted into the context
slot, the prompt is rendered, and the completion model (an external function
from prompt to text, followed by StrOutputParser) is invoked.  There is no
branch on the number of retrieved documents. -/
def rag_chain (model : String → String) (retrieved : List IndexedPoint)
    (question core_values : String) : String :=
  model (prompt_template (format_docs retrieved) question core_values)

end RAG

namespace Slack

/-- One custom profile field as returned by users_profile_get: its label and
value, either of which may be absent. -/
structure ProfileField where
  label : Option String
  value : Option String
deriving DecidableEq, Repr

/-- The fields mapping of a Slack user profile: field id to field data. -/
abbrev Profile := List (String × ProfileField)

/-- The loop of get_user_role (slack_service.py:37-43): return the lowercased
value of the first field labelled "Role" (defaulting the value to "general"),
or "general" when no such field exists. -/
def findRole : Profile → String
  | [] => "general"
  | (_, fd) :: rest =>
    if fd.label = some "Role" then (fd.value.getD "general").toLower
    else findRole rest

/-- The names bound at module scope in app/services/slack_service.py: its
imports (slack_service.py:3-11) and its top-level definitions.  Notably,
SlackApiError is referenced at line 44 but never imported. -/
def slackServiceModuleNames : List String :=
  [ "re", "requests", "json", "App", "SlackRequestHandler", "Thread",
    "settings", "gpt_service", "slack_app", "app_handler", "get_user_role",
    "process_ai_request_and_respond", "handle_app_mentions",
    "handle_slash_command" ]

/-- Whether the clause `except SlackApiError` (slack_service.py:44) can be
evaluated: Python resolves the name SlackApiError only when an exception is
being matched, and an unresolvable name makes the matching itself raise
NameError, discarding the handlers below it. -/
def exceptClauseResolves : Bool :=
  slackServiceModuleNames.contains "SlackApiError"

/-- Embeds get_user_role (slack_service.py:28-51).  The profile lookup is the
external users_profile_get call: Except.ok is a returned profile, Except.error
a raised exception.  On a raised exception the first except clause must be
evaluated; since SlackApiError is not a defined name, that evaluation raises
NameError (the fall-through `return "general"` at line 51 is unreachable on
this path), which the embedding records as an error. -/
def get_user_role (fetchProfile : Except String Profile) : Except String String :=
  match fetchProfile with
  | Except.ok profile => Except.ok (findRole profile)
  | Except.error e =>
    if exceptClauseResolves then Except.ok "general"
    else Except.error ("NameError: name 'SlackApiError' is not defined (while handling: " ++ e ++ ")")

/-- The message built for an empty question (slack_service.py:68). -/
def noQuestionMsg : String :=
  "It looks like you didn't ask a question. Please try again!"

/-- The generic apology of the outer exception handler (slack_service.py:75). -/
def apology : String :=
  "Sorry, I encountered an error while processing your request. The engineers have been notified."

/-- Embeds the message computation of process_ai_request_and_respond
(slack_service.py:63-75) for an already mention-stripped question:
an empty question yields the fixed prompt message; otherwise the role is
resolved and gpt_service.get_answer (the external answering pipeline, a
function of question and role) is invoked; any exception inside the try block
— including the NameError escaping get_user_role — is caught by
`except Exception` and replaced by the generic apology. -/
def process_ai_request (fetchProfile : Except String Profile)
    (get_answer : String → String → String) (user_question : String) : String :=
  if user_question = "" then noQuestionMsg
  else
    match get_user_role fetchProfile with
    | Except.ok user_role => get_answer user_question user_role
    | Except.error _ => apology

end Slack

namespace RAG

/-- The role field of the payload is addressed by the key "metadata.role". -/
theorem payloadGet_role (p : IndexedPoint) : payloadGet p "metadata.role" = some p.role := rfl

/-- The filter built by _get_retriever matches exactly the points whose role
is the requester's role or "general". -/
theorem matchesFilter_role_filter (p : IndexedPoint) (user_role : String) :
    matchesFilter p (role_filter user_role) = (p.role == user_role || p.role == "general") := by
  simp [matchesFilter, role_filter, matchesCond, payloadGet_role]

/-- Any point of one admissible search result also belongs to any other
admissible search result for the same state, filter and k, provided no two
stored points share a similarity score. -/
theorem search_result_subset {s : SearchSpec} {flt : QFilter} {k : Nat}
    {r1 r2 : List IndexedPoint}
    (hinj : ∀ p ∈ s.points, ∀ q ∈ s.points, s.score p = s.score q → p = q)
    (h1 : IsSearchResult s flt k r1) (h2 : IsSearchResult s flt k r2) :
    ∀ x ∈ r1, x ∈ r2 := by
  obtain ⟨nd1, mem1, len1, -, comp1⟩ := h1
  obtain ⟨nd2, mem2, len2, -, comp2⟩ := h2
  intro p hp
  by_contra hpn
  have hple : ∀ q ∈ r2, s.score p ≤ s.score q :=
    comp2 p (mem1 p hp).1 (mem1 p hp).2 hpn
  have hplt : ∀ q ∈ r2, s.score p < s.score q := by
    intro q hq
    have hne : p ≠ q := fun h => hpn (h ▸ hq)
    have := hple q hq
    rcases Nat.lt_or_ge (s.score p) (s.score q) with h | h
    · exact h
    · exact absurd (hinj p (mem1 p hp).1 q (mem2 q hq).1 (Nat.le_antisymm this h)) hne
  have hex : ∃ q ∈ r2, q ∉ r1 := by
    by_contra hall
    push_neg at hall
    have hsub : r2 ⊆ r1.erase p := by
      intro q hq
      have hne : q ≠ p := fun h => hpn (h ▸ hq)
      exact (List.mem_erase_of_ne hne).mpr (hall q hq)
    have hlen : r2.length ≤ (r1.erase p).length := (nd2.subperm hsub).length_le
    rw [List.length_erase_of_mem hp] at hlen
    have hpos : 0 < r1.length := List.length_pos_of_mem hp
    omega
  obtain ⟨q, hq2, hq1⟩ := hex
  have : s.score q ≤ s.score p :=
    comp1 q (mem2 q hq2).1 (mem2 q hq2).2 hq1 p hp
  exact absurd this (Nat.not_le_of_lt (hplt q hq2))

/-- Two lists that are strictly sorted by the same score and contain the same
elements are equal. -/
theorem sorted_strict_mem_eq {α : Type} (f : α → Nat) :
    ∀ (l1 l2 : List α), l1.Pairwise (fun p q => f q < f p) →
      l2.Pairwise (fun p q => f q < f p) →
      (∀ x, x ∈ l1 ↔ x ∈ l2) → l1 = l2 := by
  intro l1
  induction l1 with
  | nil =>
    intro l2 _ _ hmem
    cases l2 with
    | nil => rfl
    | cons b t2 => exact absurd ((hmem b).mpr (List.mem_cons_self b t2)) (List.not_mem_nil b)
  | cons a t1 ih =>
    intro l2 hp1 hp2 hmem
    cases l2 with
    | nil => exact absurd ((hmem a).mp (List.mem_cons_self a t1)) (List.not_mem_nil a)
    | cons b t2 =>
      have hab : a = b := by
        rcases List.mem_cons.mp ((hmem a).mp (List.mem_cons_self a t1)) with h | h
        · exact h
        · rcases List.mem_cons.mp ((hmem b).mpr (List.mem_cons_self b t2)) with h' | h'
          · exact h'.symm
          · have h1 : f a < f b := (List.pairwise_cons.mp hp2).1 a h
            have h2 : f b < f a := (List.pairwise_cons.mp hp1).1 b h'
            omega
      subst hab
      have htail : ∀ x, x ∈ t1 ↔ x ∈ t2 := by
        intro x
        constructor
        · intro hx
          have hxa : f x < f a := (List.pairwise_cons.mp hp1).1 x hx
          rcases List.mem_cons.mp ((hmem x).mp (List.mem_cons_of_mem a hx)) with h | h
          · subst h; omega
          · exact h
        · intro hx
          have hxa : f x < f a := (List.pairwise_cons.mp hp2).1 x hx
          rcases List.mem_cons.mp ((hmem x).mpr (List.mem_cons_of_mem a hx)) with h | h
          · subst h; omega
          · exact h
      rw [ih t2 (List.pairwise_cons.mp hp1).2 (List.pairwise_cons.mp hp2).2 htail]

end RAG

namespace W1

/-- A chunk indexed with the shared role. -/
def pGeneral : RAG.IndexedPoint :=
  ⟨"Refunds must be approved within 48 hours", "sales", "general",
   "documents/sales/general/playbook.pdf"⟩

/-- A chunk indexed with a restricted role. -/
def pHR : RAG.IndexedPoint :=
  ⟨"Disciplinary procedure details", "hr", "hr", "documents/hr/hr/policy.pdf"⟩

/-- A concrete index state for the access-control witness. -/
def spec : RAG.SearchSpec := ⟨[pGeneral, pHR], fun _ => 3⟩

end W1

/-- C1: every chunk an admissible execution of the role-filtered retriever
returns for requester role r has role r or "general", and a chunk indexed
with a role R ≠ "general" is never returned for a requester whose role is
neither R nor "general". -/
theorem C1_retrieval_role_access_control (s : RAG.SearchSpec) (user_role : String)
    (r : List RAG.IndexedPoint) (h : RAG.RetrieverYields s user_role r) :
    (∀ p ∈ r, p.role = user_role ∨ p.role = "general") ∧
    (∀ R p, p ∈ s.points → p.role = R → R ≠ "general" → user_role ≠ R → p ∉ r) := by
  obtain ⟨-, hmem, -, -, -⟩ := h
  have key : ∀ p ∈ r, p.role = user_role ∨ p.role = "general" := by
    intro p hp
    have hm := (hmem p hp).2
    rw [RAG.matchesFilter_role_filter] at hm
    simpa using hm
  refine ⟨key, ?_⟩
  intro R p _ hrole hRg huR hpr
  rcases key p hpr with h | h
  · exact huR (h.symm.trans hrole)
  · exact hRg (hrole.symm.trans h)

/-- C1 witness: a concrete admissible retrieval for requester role
"marketing" against an index holding a "general" chunk and an "hr" chunk. -/
theorem C1_retrieval_role_access_control_witness :
    (∀ p ∈ [W1.pGeneral], p.role = "marketing" ∨ p.role = "general") ∧
    (∀ R p, p ∈ W1.spec.points → p.role = R → R ≠ "general" → "marketing" ≠ R →
      p ∉ [W1.pGeneral]) :=
  C1_retrieval_role_access_control W1.spec "marketing" [W1.pGeneral]
    (by unfold RAG.RetrieverYields RAG.IsSearchResult; decide)

namespace W7

/-- First of two equal-score "general" chunks. -/
def pA : RAG.IndexedPoint :=
  ⟨"Chunk A", "sales", "general", "documents/sales/general/a.pdf"⟩

/-- Second of two equal-score "general" chunks. -/
def pB : RAG.IndexedPoint :=
  ⟨"Chunk B", "sales", "general", "documents/sales/general/b.pdf"⟩

/-- An index state in which both chunks tie on similarity. -/
def tieSpec : RAG.SearchSpec := ⟨[pA, pB], fun _ => 5⟩

/-- An index state in which the two chunks have distinct similarities. -/
def distinctSpec : RAG.SearchSpec := ⟨[pA, pB], fun p => if p = pA then 5 else 3⟩

end W7

/-- C7 counterexample: for one and the same index state, question embedding
and requester role, two executions of the retriever may return the same two
equal-score chunks in either order — the code applies no secondary tie-break
key, so the claimed stable ordering fails. -/
theorem C7_determinism_counterexample :
    RAG.RetrieverYields W7.tieSpec "general" [W7.pA, W7.pB] ∧
    RAG.RetrieverYields W7.tieSpec "general" [W7.pB, W7.pA] ∧
    [W7.pA, W7.pB] ≠ [W7.pB, W7.pA] := by
  refine ⟨?_, ?_, by decide⟩ <;>
    (unfold RAG.RetrieverYields RAG.IsSearchResult; decide)

/-- C7 (amended): the retriever performs no reordering beyond the index's
score ranking and no secondary tie-break; two executions against the same
index state agree whenever no two stored points share a similarity score. -/
theorem C7_amended_deterministic_when_scores_distinct (s : RAG.SearchSpec)
    (user_role : String) (r1 r2 : List RAG.IndexedPoint)
    (hinj : ∀ p ∈ s.points, ∀ q ∈ s.points, s.score p = s.score q → p = q)
    (h1 : RAG.RetrieverYields s user_role r1)
    (h2 : RAG.RetrieverYields s user_role r2) : r1 = r2 := by
  have hmemb : ∀ x, x ∈ r1 ↔ x ∈ r2 := fun x =>
    ⟨fun hx => RAG.search_result_subset hinj h1 h2 x hx,
     fun hx => RAG.search_result_subset hinj h2 h1 x hx⟩
  obtain ⟨nd1, mem1, -, pw1, -⟩ := h1
  obtain ⟨nd2, mem2, -, pw2, -⟩ := h2
  have strict : ∀ (r : List RAG.IndexedPoint), r.Nodup →
      (∀ p ∈ r, p ∈ s.points) →
      r.Pairwise (fun p q => s.score q ≤ s.score p) →
      r.Pairwise (fun p q => s.score q < s.score p) := by
    intro r nd mem pw
    refine List.Pairwise.imp_of_mem ?_ (pw.and nd)
    intro a b ha hb hab
    rcases Nat.lt_or_ge (s.score b) (s.score a) with h | h
    · exact h
    · exact absurd (hinj a (mem a ha) b (mem b hb) (Nat.le_antisymm h hab.1)) hab.2
  exact RAG.sorted_strict_mem_eq s.score r1 r2
    (strict r1 nd1 (fun p hp => (mem1 p hp).1) pw1)
    (strict r2 nd2 (fun p hp => (mem2 p hp).1) pw2) hmemb

/-- C7 amended witness: with distinct scores the unique admissible result is
returned by both executions. -/
theorem C7_amended_deterministic_witness : [W7.pA, W7.pB] = [W7.pA, W7.pB] :=
  C7_amended_deterministic_when_scores_distinct W7.distinctSpec "general"
    [W7.pA, W7.pB] [W7.pA, W7.pB] (by decide)
    (by unfold RAG.RetrieverYields RAG.IsSearchResult; decide)
    (by unfold RAG.RetrieverYields RAG.IsSearchResult; decide)

/-- C9: when the retriever yields zero chunks, the chain still invokes the
completion model, on the prompt rendered with an empty context section — for
every model, question and policy text, the pipeline output is the model's
output on that prompt, not a hardcoded message. -/
theorem C9_empty_retrieval_still_invokes_model (model : String → String)
    (question core_values : String) :
    RAG.rag_chain model [] question core_values
      = model (RAG.prompt_template "" question core_values) := rfl

/-- C2: the manifest is written only by the final commit step.  For every
crash point — every prefix of the run's event trace — if no manifest commit
lies in the prefix, the on-disk manifest is still exactly the starting one,
so the next run's scan selects exactly what this run's scan selected; and if
the commit does lie in the prefix, the embed-and-upsert of every selected
file's chunks lies in the same prefix — a file is never marked processed
before it is indexed. -/
theorem C2_manifest_commit_last (env : Ingest.Env) (force : Bool)
    (p : List Ingest.Event) (hp : p <+: Ingest.mainTrace env force) :
    ((∀ m, Ingest.Event.commitManifest m ∉ p) →
        Ingest.manifestAfter env.log0 p = env.log0 ∧
        Ingest.get_documents_to_process env.files
            (Ingest.manifestAfter env.log0 p) force
          = Ingest.get_documents_to_process env.files env.log0 force) ∧
    (∀ m, Ingest.Event.commitManifest m ∈ p →
        ∃ chunks, Ingest.Event.embedUpsert chunks force ∈ p ∧
          ∀ fi ∈ Ingest.get_documents_to_process env.files env.log0 force,
            ∃ docs, Ingest.loadOne env.loaders fi = Except.ok docs ∧
              ∀ c ∈ docs.flatMap (Ingest.splitDoc env.splitText), c ∈ chunks) := by
  constructor
  · intro h
    have hm := @Ingest.manifestAfter_no_commit env.log0 p h
    exact ⟨hm, by rw [hm]⟩
  · intro m hm
    by_cases hne : Ingest.get_documents_to_process env.files env.log0 force = []
    · obtain ⟨htr, -⟩ := Ingest.mainTrace_of_noFiles hne
      rw [htr] at hp
      have := hp.subset hm
      simp at this
    · cases hload : Ingest.load_and_split_documents env.loaders env.splitText
          (Ingest.get_documents_to_process env.files env.log0 force) with
      | error e =>
        obtain ⟨htr, -⟩ := Ingest.mainTrace_of_crashed hne hload
        rw [htr] at hp
        have := hp.subset hm
        simp at this
      | ok chunks =>
        by_cases hch : chunks = []
        · subst hch
          obtain ⟨htr, -⟩ := Ingest.mainTrace_of_noContent hne hload
          rw [htr] at hp
          have := hp.subset hm
          simp at this
        · obtain ⟨htr, -⟩ := Ingest.mainTrace_of_completed hne hload hch
          refine ⟨chunks, ?_, ?_⟩
          · rw [htr] at hp
            have hpeq := List.prefix_iff_eq_take.mp hp
            have hlen := hp.length_le
            simp only [List.length_cons, List.length_nil] at hlen
            set n := p.length with hn
            interval_cases n <;> rw [hpeq] at hm ⊢ <;> simp at hm ⊢
          · intro fi hfi
            unfold Ingest.load_and_split_documents at hload
            cases hall : Ingest.loadAll env.loaders
                (Ingest.get_documents_to_process env.files env.log0 force) with
            | error e =>
              rw [hall] at hload
              simp [Except.map] at hload
            | ok all_docs =>
              rw [hall] at hload
              have hchunks : all_docs.flatMap (Ingest.splitDoc env.splitText) = chunks := by
                simpa [Except.map] using hload
              obtain ⟨docs, h1, h2⟩ := Ingest.loadAll_ok_forall hall fi hfi
              refine ⟨docs, h1, ?_⟩
              intro c hc
              rw [← hchunks]
              obtain ⟨d, hd, hcd⟩ := List.mem_flatMap.mp hc
              exact List.mem_flatMap.mpr ⟨d, h2 d hd, hcd⟩

namespace W2

/-- A one-file source tree whose PDF loads successfully. -/
def env : Ingest.Env :=
  { files := [⟨["documents", "sales", "general", "playbook.pdf"], 10⟩]
    log0 := []
    loaders :=
      { pypdf := fun _ => Except.ok ["Refunds must be approved within 48 hours"]
        unstructuredWord := fun _ => Except.ok [] }
    splitText := fun t => [t]
    commitMtime := fun _ => 10
    now := 99 }

end W2

/-- C2 witness: the theorem instantiated at a concrete successful run, with
the crash point taken after the whole trace. -/
theorem C2_manifest_commit_last_witness :
    ((∀ m, Ingest.Event.commitManifest m ∉ Ingest.mainTrace W2.env false) →
        Ingest.manifestAfter W2.env.log0 (Ingest.mainTrace W2.env false) = W2.env.log0 ∧
        Ingest.get_documents_to_process W2.env.files
            (Ingest.manifestAfter W2.env.log0 (Ingest.mainTrace W2.env false)) false
          = Ingest.get_documents_to_process W2.env.files W2.env.log0 false) ∧
    (∀ m, Ingest.Event.commitManifest m ∈ Ingest.mainTrace W2.env false →
        ∃ chunks, Ingest.Event.embedUpsert chunks false ∈ Ingest.mainTrace W2.env false ∧
          ∀ fi ∈ Ingest.get_documents_to_process W2.env.files W2.env.log0 false,
            ∃ docs, Ingest.loadOne W2.env.loaders fi = Except.ok docs ∧
              ∀ c ∈ docs.flatMap (Ingest.splitDoc W2.env.splitText), c ∈ chunks) :=
  C2_manifest_commit_last W2.env false (Ingest.mainTrace W2.env false)
    (List.prefix_refl _)

/-- C10: in a completed run, the committed manifest entry of every selected
file records the mtime re-read at commit time (together with the commit
timestamp) — not the mtime observed at scan time — and a file whose mtime
still equals that committed value is not considered changed by the next
run's detector, even if the indexed content predates a modification that
happened between scan and commit. -/
theorem C10_manifest_records_commit_time_mtime (env : Ingest.Env) (force : Bool)
    (hout : Ingest.mainOutcome env force = Ingest.Outcome.completed)
    (fi : Ingest.FileInfo)
    (hfi : fi ∈ Ingest.get_documents_to_process env.files env.log0 force) :
    Ingest.findEntry (Ingest.runManifest env force) fi.path
        = some ⟨env.commitMtime fi.path, env.now⟩ ∧
    Ingest.has_file_changed fi.path (env.commitMtime fi.path)
        (Ingest.runManifest env force) = false := by
  by_cases hne : Ingest.get_documents_to_process env.files env.log0 force = []
  · obtain ⟨-, hout'⟩ := Ingest.mainTrace_of_noFiles hne
    exact Ingest.Outcome.noConfusion (hout'.symm.trans hout)
  · cases hload : Ingest.load_and_split_documents env.loaders env.splitText
        (Ingest.get_documents_to_process env.files env.log0 force) with
    | error e =>
      obtain ⟨-, hout'⟩ := Ingest.mainTrace_of_crashed hne hload
      exact Ingest.Outcome.noConfusion (hout'.symm.trans hout)
    | ok chunks =>
      by_cases hch : chunks = []
      · subst hch
        obtain ⟨-, hout'⟩ := Ingest.mainTrace_of_noContent hne hload
        exact Ingest.Outcome.noConfusion (hout'.symm.trans hout)
      · obtain ⟨htr, -⟩ := Ingest.mainTrace_of_completed hne hload hch
        have hrm : Ingest.runManifest env force
            = Ingest.commitLog env
                (Ingest.get_documents_to_process env.files env.log0 force) := by
          unfold Ingest.runManifest
          rw [htr]
          rfl
        have hmem : fi.path ∈ (Ingest.get_documents_to_process env.files
            env.log0 force).map Ingest.FileInfo.path :=
          List.mem_map.mpr ⟨fi, hfi, rfl⟩
        rw [hrm]
        constructor
        · rw [Ingest.findEntry_commitLog, if_pos hmem]
        · unfold Ingest.has_file_changed
          rw [Ingest.findEntry_commitLog, if_pos hmem]
          simp

namespace W10

/-- A run during which the file is modified between scan (mtime 10) and the
commit loop (mtime 20). -/
def env : Ingest.Env :=
  { files := [⟨["documents", "sales", "general", "playbook.pdf"], 10⟩]
    log0 := []
    loaders :=
      { pypdf := fun _ => Except.ok ["Refunds must be approved within 48 hours"]
        unstructuredWord := fun _ => Except.ok [] }
    splitText := fun t => [t]
    commitMtime := fun _ => 20
    now := 99 }

/-- The selected record of that run. -/
def fi : Ingest.FileInfo :=
  Ingest.toInfo ⟨["documents", "sales", "general", "playbook.pdf"], 10⟩

end W10

/-- C10 witness: the file was scanned at mtime 10 and modified to mtime 20
before the commit loop; the committed entry records 20 and the file is not
re-selected while its mtime stays 20. -/
theorem C10_manifest_records_commit_time_mtime_witness :
    Ingest.findEntry (Ingest.runManifest W10.env false) W10.fi.path
        = some ⟨20, 99⟩ ∧
    Ingest.has_file_changed W10.fi.path 20 (Ingest.runManifest W10.env false)
        = false :=
  C10_manifest_records_commit_time_mtime W10.env false (by decide) W10.fi (by decide)

namespace W3

/-- A source tree with one eligible PDF from which the loader extracts no
content (e.g. a zero-page PDF): the first run returns at "No content could be
extracted" — before the manifest commit. -/
def env : Ingest.Env :=
  { files := [⟨["documents", "sales", "general", "empty.pdf"], 10⟩]
    log0 := []
    loaders :=
      { pypdf := fun _ => Except.ok []
        unstructuredWord := fun _ => Except.ok [] }
    splitText := fun t => [t]
    commitMtime := fun _ => 10
    now := 99 }

end W3

/-- C3 counterexample: a first run that completes without crashing (outcome
"No content could be extracted") and with no source change at all still
leaves the manifest unwritten, so the second run selects the same file again
— the claim that the second run selects no files fails. -/
theorem C3_idempotence_counterexample :
    Ingest.mainOutcome W3.env false = Ingest.Outcome.noContent ∧
    (∀ f ∈ W3.env.files, W3.env.commitMtime f.parts = f.mtime) ∧
    Ingest.get_documents_to_process W3.env.files
        (Ingest.runManifest W3.env false) false ≠ [] := by
  refine ⟨by decide, by decide, by decide⟩

/-- C3 (amended): for two consecutive runs with no source changes, the second
run performs no embedding and no upsert whatsoever; and whenever the first
run committed its manifest (or already selected nothing), the second run
selects no files at all.  Only a first run that selected files but extracted
zero content re-selects them — still without any embedding or index work. -/
theorem C3_amended_second_run_no_embedding (env : Ingest.Env)
    (hrun : ∀ e, Ingest.mainOutcome env false ≠ Ingest.Outcome.crashed e)
    (hnochange : ∀ f ∈ env.files, env.commitMtime f.parts = f.mtime) :
    (∀ chunks frc, Ingest.Event.embedUpsert chunks frc ∉
        Ingest.mainTrace (Ingest.secondEnv env) false) ∧
    ((Ingest.mainOutcome env false = Ingest.Outcome.completed ∨
        Ingest.mainOutcome env false = Ingest.Outcome.noFiles) →
      Ingest.get_documents_to_process env.files
          (Ingest.runManifest env false) false = []) := by
  by_cases hne : Ingest.get_documents_to_process env.files env.log0 false = []
  · obtain ⟨htr, -⟩ := Ingest.mainTrace_of_noFiles hne
    have hrm : Ingest.runManifest env false = env.log0 := by
      unfold Ingest.runManifest; rw [htr]; rfl
    have hse := Ingest.secondEnv_eq_self hrm
    constructor
    · intro chunks frc hmem
      rw [hse, htr] at hmem
      simp at hmem
    · intro _
      rw [hrm]; exact hne
  · cases hload : Ingest.load_and_split_documents env.loaders env.splitText
        (Ingest.get_documents_to_process env.files env.log0 false) with
    | error e =>
      obtain ⟨-, hout⟩ := Ingest.mainTrace_of_crashed hne hload
      exact absurd hout (hrun e)
    | ok chunks =>
      by_cases hch : chunks = []
      · subst hch
        obtain ⟨htr, hout⟩ := Ingest.mainTrace_of_noContent hne hload
        have hrm : Ingest.runManifest env false = env.log0 := by
          unfold Ingest.runManifest; rw [htr]; rfl
        have hse := Ingest.secondEnv_eq_self hrm
        constructor
        · intro chunks' frc hmem
          rw [hse, htr] at hmem
          simp at hmem
        · intro hd
          rw [hout] at hd
          rcases hd with hd | hd <;> exact Ingest.Outcome.noConfusion hd
      · obtain ⟨htr, -⟩ := Ingest.mainTrace_of_completed hne hload hch
        have hrm : Ingest.runManifest env false
            = Ingest.commitLog env
                (Ingest.get_documents_to_process env.files env.log0 false) := by
          unfold Ingest.runManifest; rw [htr]; rfl
        have hempty : Ingest.get_documents_to_process env.files
            (Ingest.runManifest env false) false = [] := by
          rw [hrm]
          apply Ingest.scan_empty
          intro f hf hsup hdep
          unfold Ingest.has_file_changed
          rw [Ingest.findEntry_commitLog]
          by_cases hmem : f.parts ∈ (Ingest.get_documents_to_process env.files
              env.log0 false).map Ingest.FileInfo.path
          · rw [if_pos hmem]
            simp [hnochange f hf]
          · rw [if_neg hmem]
            by_cases hchg : Ingest.has_file_changed f.parts f.mtime env.log0 = true
            · exfalso
              apply hmem
              apply List.mem_map.mpr
              refine ⟨Ingest.toInfo f, ?_, rfl⟩
              apply (Ingest.mem_scan_iff _ _ _ _).mpr
              exact ⟨f, hf, rfl, hsup, by simp [hchg], hdep⟩
            · have hfalse : Ingest.has_file_changed f.parts f.mtime env.log0 = false := by
                cases h : Ingest.has_file_changed f.parts f.mtime env.log0
                · rfl
                · exact absurd h hchg
              unfold Ingest.has_file_changed at hfalse
              exact hfalse
        constructor
        · intro chunks' frc hmem
          have hsel2 : Ingest.get_documents_to_process (Ingest.secondEnv env).files
              (Ingest.secondEnv env).log0 false = [] := hempty
          obtain ⟨htr2, -⟩ := Ingest.mainTrace_of_noFiles hsel2
          rw [htr2] at hmem
          simp at hmem
        · intro _
          exact hempty

namespace W3a

/-- A one-file source tree whose first run completes and commits. -/
def env : Ingest.Env :=
  { files := [⟨["documents", "sales", "general", "playbook.pdf"], 10⟩]
    log0 := []
    loaders :=
      { pypdf := fun _ => Except.ok ["Refunds must be approved within 48 hours"]
        unstructuredWord := fun _ => Except.ok [] }
    splitText := fun t => [t]
    commitMtime := fun _ => 10
    now := 99 }

end W3a

/-- C3 amended witness: after a concrete completed-and-committed first run
with no source changes, the second run selects nothing and embeds nothing. -/
theorem C3_amended_second_run_no_embedding_witness :
    (∀ chunks frc, Ingest.Event.embedUpsert chunks frc ∉
        Ingest.mainTrace (Ingest.secondEnv W3a.env) false) ∧
    ((Ingest.mainOutcome W3a.env false = Ingest.Outcome.completed ∨
        Ingest.mainOutcome W3a.env false = Ingest.Outcome.noFiles) →
      Ingest.get_documents_to_process W3a.env.files
          (Ingest.runManifest W3a.env false) false = []) :=
  C3_amended_second_run_no_embedding W3a.env
    (fun e h => Ingest.Outcome.noConfusion
      ((show Ingest.mainOutcome W3a.env false = Ingest.Outcome.completed by decide).symm.trans h))
    (by decide)

/-- C4: for an eligible file (supported extension, sufficient path depth) the
change detector selects it in a non-force scan exactly when it has no
manifest entry or its current mtime is strictly greater than the recorded
one; a file whose recorded mtime equals its current mtime is not re-selected;
a file whose recorded mtime is below its current mtime is re-selected; and a
force scan selects every eligible file regardless of the manifest. -/
theorem C4_change_detector_selects_iff (files : List Ingest.FSFile)
    (log : Ingest.Manifest) (f : Ingest.FSFile) (hf : f ∈ files)
    (hnd : (files.map Ingest.FSFile.parts).Nodup)
    (hsup : Ingest.supportedExt f.filename = true)
    (hdep : 4 ≤ f.parts.length) :
    (Ingest.toInfo f ∈ Ingest.get_documents_to_process files log false ↔
        Ingest.findEntry log f.parts = none ∨
          ∃ e, Ingest.findEntry log f.parts = some e ∧
            e.last_modified < f.mtime) ∧
    (∀ e, Ingest.findEntry log f.parts = some e → e.last_modified = f.mtime →
        Ingest.toInfo f ∉ Ingest.get_documents_to_process files log false) ∧
    (∀ e, Ingest.findEntry log f.parts = some e → e.last_modified < f.mtime →
        Ingest.toInfo f ∈ Ingest.get_documents_to_process files log false) ∧
    Ingest.toInfo f ∈ Ingest.get_documents_to_process files log true := by
  have hchg : Ingest.has_file_changed f.parts f.mtime log = true ↔
      (Ingest.findEntry log f.parts = none ∨
        ∃ e, Ingest.findEntry log f.parts = some e ∧
          e.last_modified < f.mtime) := by
    unfold Ingest.has_file_changed
    cases hfe : Ingest.findEntry log f.parts with
    | none => simp
    | some e => simp
  have hmain : Ingest.toInfo f ∈ Ingest.get_documents_to_process files log false ↔
      Ingest.has_file_changed f.parts f.mtime log = true := by
    rw [Ingest.mem_scan_iff]
    constructor
    · rintro ⟨f', hf', heq, hs', hc', hd'⟩
      have hparts : f'.parts = f.parts := congrArg Ingest.FileInfo.path heq
      have hff : f' = f := List.inj_on_of_nodup_map hnd hf' hf hparts
      subst hff
      simpa using hc'
    · intro hc
      exact ⟨f, hf, rfl, hsup, by simp [hc], hdep⟩
  refine ⟨hmain.trans hchg, ?_, ?_, ?_⟩
  · intro e hfe heq hmem
    rcases (hmain.trans hchg).mp hmem with h | ⟨e', he', hlt⟩
    · rw [hfe] at h; exact Option.noConfusion h
    · rw [hfe] at he'
      have hee : e = e' := by injection he'
      rw [← hee] at hlt
      rw [heq] at hlt
      exact Nat.lt_irrefl _ hlt
  · intro e hfe hlt
    exact (hmain.trans hchg).mpr (Or.inr ⟨e, hfe, hlt⟩)
  · rw [Ingest.mem_scan_iff]
    exact ⟨f, hf, rfl, hsup, by simp, hdep⟩

namespace W4

/-- A file whose mtime was bumped to 20 after being recorded at 10. -/
def fTouched : Ingest.FSFile := ⟨["documents", "sales", "general", "playbook.pdf"], 20⟩

/-- A file unchanged since it was recorded. -/
def fUnchanged : Ingest.FSFile := ⟨["documents", "hr", "general", "handbook.pdf"], 10⟩

/-- The walk result. -/
def files : List Ingest.FSFile := [fUnchanged, fTouched]

/-- The manifest recording both files at mtime 10. -/
def log : Ingest.Manifest :=
  [ (["documents", "hr", "general", "handbook.pdf"], ⟨10, 50⟩),
    (["documents", "sales", "general", "playbook.pdf"], ⟨10, 50⟩) ]

end W4

/-- C4 witness: the change-detector characterisation at the touched file. -/
theorem C4_change_detector_selects_iff_witness :
    (Ingest.toInfo W4.fTouched ∈
        Ingest.get_documents_to_process W4.files W4.log false ↔
      Ingest.findEntry W4.log W4.fTouched.parts = none ∨
        ∃ e, Ingest.findEntry W4.log W4.fTouched.parts = some e ∧
          e.last_modified < W4.fTouched.mtime) ∧
    (∀ e, Ingest.findEntry W4.log W4.fTouched.parts = some e →
        e.last_modified = W4.fTouched.mtime →
      Ingest.toInfo W4.fTouched ∉
        Ingest.get_documents_to_process W4.files W4.log false) ∧
    (∀ e, Ingest.findEntry W4.log W4.fTouched.parts = some e →
        e.last_modified < W4.fTouched.mtime →
      Ingest.toInfo W4.fTouched ∈
        Ingest.get_documents_to_process W4.files W4.log false) ∧
    Ingest.toInfo W4.fTouched ∈
      Ingest.get_documents_to_process W4.files W4.log true :=
  C4_change_detector_selects_iff W4.files W4.log W4.fTouched (by decide)
    (by decide) (by decide) (by decide)

/-- C5: a supported file not yet in the manifest whose path is too shallow to
encode department and role is excluded from the selection, its path is
reported in the skip diagnostic, and the scan of all the other files is
exactly what it would have been without the malformed file — the scan never
raises on it. -/
theorem C5_shallow_path_excluded (pre post : List Ingest.FSFile)
    (log : Ingest.Manifest) (force : Bool) (bad : Ingest.FSFile)
    (hdep : bad.parts.length < 4)
    (hsup : Ingest.supportedExt bad.filename = true)
    (hnew : Ingest.findEntry log bad.parts = none) :
    (∀ fi ∈ Ingest.get_documents_to_process (pre ++ bad :: post) log force,
        fi.path ≠ bad.parts) ∧
    bad.parts ∈ Ingest.scanDiagnostics (pre ++ bad :: post) log force ∧
    Ingest.get_documents_to_process (pre ++ bad :: post) log force
      = Ingest.get_documents_to_process (pre ++ post) log force := by
  have hbadchanged : Ingest.has_file_changed bad.parts bad.mtime log = true := by
    unfold Ingest.has_file_changed; rw [hnew]
  have hscanbad : Ingest.scanFiles log force [bad] = ([], [bad.parts]) := by
    simp only [Ingest.scanFiles]
    rw [if_pos hsup, if_pos (by simp [hbadchanged]), if_neg (Nat.not_le.mpr hdep)]
  have happ : Ingest.scanFiles log force (pre ++ bad :: post)
      = ((Ingest.scanFiles log force pre).1 ++ (Ingest.scanFiles log force post).1,
         (Ingest.scanFiles log force pre).2
           ++ bad.parts :: (Ingest.scanFiles log force post).2) := by
    rw [show pre ++ bad :: post = pre ++ ([bad] ++ post) from by simp]
    rw [Ingest.scanFiles_append log force pre ([bad] ++ post),
        Ingest.scanFiles_append log force [bad] post, hscanbad]
    simp
  refine ⟨?_, ?_, ?_⟩
  · intro fi hfi hpath
    have h4 := Ingest.scan_path_depth hfi
    rw [hpath] at h4
    omega
  · unfold Ingest.scanDiagnostics
    rw [happ]
    simp
  · unfold Ingest.get_documents_to_process
    rw [happ, Ingest.scanFiles_append log force pre post]

namespace W5

/-- A well-formed sibling file. -/
def good : Ingest.FSFile := ⟨["documents", "sales", "general", "playbook.pdf"], 10⟩

/-- A new PDF sitting directly under the document root. -/
def bad : Ingest.FSFile := ⟨["documents", "orphan.pdf"], 5⟩

end W5

/-- C5 witness: a new PDF directly under the document root is excluded,
reported, and leaves the rest of the scan unchanged. -/
theorem C5_shallow_path_excluded_witness :
    (∀ fi ∈ Ingest.get_documents_to_process ([W5.good] ++ W5.bad :: []) [] false,
        fi.path ≠ W5.bad.parts) ∧
    W5.bad.parts ∈ Ingest.scanDiagnostics ([W5.good] ++ W5.bad :: []) [] false ∧
    Ingest.get_documents_to_process ([W5.good] ++ W5.bad :: []) [] false
      = Ingest.get_documents_to_process ([W5.good] ++ []) [] false :=
  C5_shallow_path_excluded [W5.good] [] [] false W5.bad (by decide) (by decide)
    (by decide)

namespace W6

/-- A PDF whose loader raises. -/
def badFi : Ingest.FileInfo :=
  { path := ["documents", "sales", "general", "broken.pdf"]
    metadata :=
      { department := "sales", role := "general"
        source := ["documents", "sales", "general", "broken.pdf"] } }

/-- A PDF whose loader succeeds. -/
def goodFi : Ingest.FileInfo :=
  { path := ["documents", "sales", "general", "intact.pdf"]
    metadata :=
      { department := "sales", role := "general"
        source := ["documents", "sales", "general", "intact.pdf"] } }

/-- Loaders that raise on the broken PDF and succeed on anything else. -/
def L : Ingest.Loaders :=
  { pypdf := fun p =>
      if p = ["documents", "sales", "general", "broken.pdf"]
      then Except.error "unreadable" else Except.ok ["good content"]
    unstructuredWord := fun _ => Except.ok [] }

/-- The identity splitter. -/
def split : String → List String := fun t => [t]

end W6

/-- C6 counterexample: with an unreadable first file and a perfectly loadable
second file, load_and_split_documents raises the loader error — no output
exists at all, so the remaining file's chunks are not produced and the batch
is aborted, contradicting the claimed skip-and-continue behaviour. -/
theorem C6_loader_failure_counterexample :
    Ingest.load_and_split_documents W6.L W6.split [W6.badFi, W6.goodFi]
        = Except.error "unreadable" ∧
    Ingest.loadOne W6.L W6.goodFi
        = Except.ok [⟨"good content", W6.goodFi.metadata⟩] := by
  exact ⟨rfl, rfl⟩

/-- C6 (amended): a loader failure on one file propagates out of
load_and_split_documents as that file's error: provided every file before it
loads, the whole batch aborts with the first failing file's exception, no
chunks are returned, and the files after it are never loaded. -/
theorem C6_amended_loader_failure_aborts (L : Ingest.Loaders)
    (splitText : String → List String) (pre post : List Ingest.FileInfo)
    (fb : Ingest.FileInfo) (e : String)
    (hfail : Ingest.loadOne L fb = Except.error e)
    (hpre : ∀ fi ∈ pre, ∃ ds, Ingest.loadOne L fi = Except.ok ds) :
    Ingest.load_and_split_documents L splitText (pre ++ fb :: post)
      = Except.error e := by
  unfold Ingest.load_and_split_documents
  rw [Ingest.loadAll_append_error post hfail pre hpre]
  rfl

/-- C6 amended witness: a loadable file followed by the unreadable one still
aborts the batch with the loader's error. -/
theorem C6_amended_loader_failure_aborts_witness :
    Ingest.load_and_split_documents W6.L W6.split ([W6.goodFi] ++ W6.badFi :: [])
      = Except.error "unreadable" :=
  C6_amended_loader_failure_aborts W6.L W6.split [W6.goodFi] [] W6.badFi
    "unreadable" rfl
    (by
      intro fi hfi
      rcases List.mem_cons.mp hfi with rfl | h
      · exact ⟨[⟨"good content", W6.goodFi.metadata⟩], rfl⟩
      · exact absurd h (List.not_mem_nil fi))

/-- C8: code bug.  When the role-lookup call raises, get_user_role does not
resolve any role at all: matching the raised exception against the
un-imported name SlackApiError itself raises NameError, so (1) the function
never returns "general" on this path, (2) the background handler's
outer exception handler turns the request into the generic apology — the
answering pipeline is never invoked, with role "general" or any other.  Only
the lookup-succeeded, no-"Role"-field path, (3), yields "general" as the
claim describes. -/
theorem C8_role_lookup_failure_is_not_general :
    (∀ role, Slack.get_user_role (Except.error "missing_scope") ≠ Except.ok role) ∧
    (∀ get_answer : String → String → String,
      Slack.process_ai_request (Except.error "missing_scope") get_answer
          "What is the refund approval window?" = Slack.apology) ∧
    Slack.get_user_role
        (Except.ok [("Xf01", ⟨some "Team", some "Sales"⟩)]) = Except.ok "general" := by
  refine ⟨?_, fun _ => rfl, rfl⟩
  intro role h
  rw [show Slack.get_user_role (Except.error "missing_scope")
        = Except.error ("NameError: name 'SlackApiError' is not defined (while handling: "
            ++ "missing_scope" ++ ")") from rfl] at h
  exact Except.noConfusion h
